import Mathlib

/-!
Verification of the LSP protocol bridge and client core of this repository:
the Content-Length framing codec (`electron/lspBridge.ts`), the language
server process supervisor (`LspManager` in the electron main process), the
client session state handling (`src/hooks/useLspClient.ts`) and the
coordinate conversion layer (`src/lib/lspConversions.ts`).

Byte streams are modelled as `List Nat` (one element per byte).  Node
`Buffer` operations (`concat`, `subarray`, `indexOf`, `toString('ascii')`)
become list operations; the stateful `LspMessageParser` becomes explicit
state passing, with its unbounded `while (true)` loop modelled by a fuelled
loop together with a proof that enough fuel makes the result stable.
-/

namespace Tentacles

/-- Byte sequence of the CRLFCRLF header separator string used by the codec. -/
def headerSeparator : List Nat := [13, 10, 13, 10]

/-- ASCII bytes of the text `Content-Length: ` (with trailing space) that
`encodeMessage` puts in front of the payload length. -/
def contentLengthLabel : List Nat :=
  [67, 111, 110, 116, 101, 110, 116, 45, 76, 101, 110, 103, 116, 104, 58, 32]

/-- Fuelled big-endian decimal digit printer (empty on zero); structural on the
fuel so that the kernel can evaluate it.  `fuel ≥ n` always suffices. -/
def natToAsciiDigitsAux : Nat → Nat → List Nat
  | 0, _ => []
  | fuel + 1, n =>
    if n = 0 then [] else natToAsciiDigitsAux fuel (n / 10) ++ [48 + n % 10]

/-- Big-endian ASCII decimal digits of a natural number, exactly as JS template
string interpolation prints a nonnegative integer. -/
def natToAsciiDigits (n : Nat) : List Nat :=
  if n = 0 then [48] else natToAsciiDigitsAux n n

/-- UTF-8 encoding of one character, as `Buffer.from(s, 'utf-8')` produces it. -/
def utf8Bytes (c : Char) : List Nat :=
  let n := c.toNat
  if n < 0x80 then [n]
  else if n < 0x800 then [0xC0 + n / 0x40, 0x80 + n % 0x40]
  else if n < 0x10000 then
    [0xE0 + n / 0x1000, 0x80 + (n / 0x40) % 0x40, 0x80 + n % 0x40]
  else
    [0xF0 + n / 0x40000, 0x80 + (n / 0x1000) % 0x40, 0x80 + (n / 0x40) % 0x40, 0x80 + n % 0x40]

/-- UTF-8 bytes of a whole string. -/
def strBytes (s : String) : List Nat := (s.data.map utf8Bytes).flatten

/-- `encodeMessage`: the Content-Length header (label, decimal byte count of
the payload, CRLFCRLF separator) followed by the payload bytes. -/
def encodeMessage (body : List Nat) : List Nat :=
  contentLengthLabel ++ natToAsciiDigits body.length ++ headerSeparator ++ body

/-- The header block of an encoded frame: the bytes before the separator. -/
def frameHeader (n : Nat) : List Nat := contentLengthLabel ++ natToAsciiDigits n

/-- `Buffer.prototype.indexOf('\r\n\r\n')`: index of the first occurrence of the
separator byte sequence, `none` when there is no occurrence (JS `-1`). -/
def findSeparator : List Nat → Option Nat
  | [] => none
  | b :: rest =>
    if headerSeparator.isPrefixOf (b :: rest) then some 0
    else (findSeparator rest).map (· + 1)

/-- Node `toString('ascii')` decodes each byte with its high bit stripped. -/
def asciiDecode (l : List Nat) : List Nat := l.map (· % 128)

/-- ASCII lower-casing of one character code, the effect of the regex `i` flag
on the byte-range characters produced by `toString('ascii')`. -/
def toLowerByte (b : Nat) : Nat := if 65 ≤ b ∧ b ≤ 90 then b + 32 else b

/-- Character class `\s` of the header regex, restricted to 7-bit codes. -/
def isWsByte (b : Nat) : Bool := b == 32 || b == 9 || b == 10 || b == 11 || b == 12 || b == 13

/-- Character class `\d` of the header regex. -/
def isDigitByte (b : Nat) : Bool := 48 ≤ b && b ≤ 57

/-- Numeric value of a big-endian ASCII digit run, as `parseInt(run, 10)`. -/
def digitsValue (l : List Nat) : Nat := l.foldl (fun acc d => acc * 10 + (d - 48)) 0

/-- Lower-case character codes of the literal `content-length:` that the
case-insensitive header regex searches for. -/
def clLiteral : List Nat :=
  [99, 111, 110, 116, 101, 110, 116, 45, 108, 101, 110, 103, 116, 104, 58]

/-- Tail of the regex at a fixed match position: `\s*` greedily skips
whitespace, then `(\d+)` captures a nonempty maximal digit run whose decimal
value is returned.  Backtracking inside `\s*` never succeeds because `\s` and
`\d` are disjoint, so greedy skipping is exact. -/
def matchDigitsAfterWs (l : List Nat) : Option Nat :=
  let ds := (l.dropWhile isWsByte).takeWhile isDigitByte
  if ds.isEmpty then none else some (digitsValue ds)

/-- Model of `CONTENT_LENGTH_RE.exec(headerStr)` followed by
`parseInt(match[1], 10)`: the regex engine tries every start position from the
left, matching the literal case-insensitively and then `\s*(\d+)`; the first
position where the whole pattern matches yields the captured value. -/
def parseContentLength : List Nat → Option Nat
  | [] => none
  | b :: rest =>
    if clLiteral.isPrefixOf ((b :: rest).map toLowerByte) then
      match matchDigitsAfterWs ((b :: rest).drop clLiteral.length) with
      | some n => some n
      | none => parseContentLength rest
    else parseContentLength rest

/-- Outcome of one iteration of the `while (true)` loop in
`LspMessageParser.parse`: either the loop returns (waiting for more input,
keeping the buffer), or it continues with a shortened buffer, having emitted a
message (complete frame) or nothing (malformed header skipped). -/
inductive StepResult where
  | done : List Nat → StepResult
  | more : List Nat → Option (List Nat) → StepResult
deriving DecidableEq

/-- One iteration of the parse loop, translated clause by clause:
find the separator (return when absent), regex the header block (skip past it
when the length field is unparseable), then either wait for the full body or
emit it and advance the buffer. -/
def parseStep (buf : List Nat) : StepResult :=
  match findSeparator buf with
  | none => .done buf
  | some headerEnd =>
    match parseContentLength (asciiDecode (buf.take headerEnd)) with
    | none => .more (buf.drop (headerEnd + 4)) none
    | some contentLength =>
      let bodyStart := headerEnd + 4
      let messageEnd := bodyStart + contentLength
      if buf.length < messageEnd then .done buf
      else .more (buf.drop messageEnd) (some ((buf.drop bodyStart).take contentLength))

/-- The parse loop with an explicit iteration budget.  Returns the final
buffer and the messages handed to `onMessage`, in emission order. -/
def parseFuel : Nat → List Nat → List Nat × List (List Nat)
  | 0, buf => (buf, [])
  | fuel + 1, buf =>
    match parseStep buf with
    | .done b => (b, [])
    | .more b none => parseFuel fuel b
    | .more b (some msg) =>
      let r := parseFuel fuel b
      (r.1, msg :: r.2)

/-- `LspMessageParser.parse` on a given buffer.  Every continuing iteration
consumes at least four bytes (separator included), so `length + 1` iterations
always suffice; `parseFuel_enough` below proves the budget is irrelevant. -/
def parse (buf : List Nat) : List Nat × List (List Nat) :=
  parseFuel (buf.length + 1) buf

/-- Parser state: the accumulated buffer and the messages emitted so far (the
arguments of the `onMessage` invocations, as UTF-8 byte sequences). -/
structure ParserState where
  buffer : List Nat
  messages : List (List Nat)
deriving DecidableEq

/-- `LspMessageParser.write`: append the chunk to the buffer and run the parse
loop, accumulating emitted messages. -/
def write (st : ParserState) (chunk : List Nat) : ParserState :=
  let r := parse (st.buffer ++ chunk)
  ⟨r.1, st.messages ++ r.2⟩

/-- Feed a sequence of chunks to the parser with successive `write` calls. -/
def writeAll (st : ParserState) (chunks : List (List Nat)) : ParserState :=
  chunks.foldl write st

/-- A parser that has seen no input yet. -/
def freshParser : ParserState := ⟨[], []⟩

example : parse (encodeMessage (strBytes "ab")) = ([], [[97, 98]]) := by decide
example : writeAll freshParser ((encodeMessage (strBytes "ab")).map (fun b => [b]))
    = ⟨[], [[97, 98]]⟩ := by decide
example : parse ((encodeMessage (strBytes "ab")).take 18) =
    ((encodeMessage (strBytes "ab")).take 18, []) := by decide
example : parseStep ([88] ++ headerSeparator ++ [89]) = .more [89] none := by decide

/-! Basic facts about `List.isPrefixOf` and `findSeparator`. -/

lemma isPrefixOf_self_append (a b : List Nat) : a.isPrefixOf (a ++ b) = true := by
  induction a with
  | nil => simp [List.isPrefixOf]
  | cons x xs ih => simp [List.isPrefixOf, ih]

lemma length_le_of_isPrefixOf {a l : List Nat} (h : a.isPrefixOf l = true) :
    a.length ≤ l.length := by
  induction a generalizing l with
  | nil => simp
  | cons x xs ih =>
    cases l with
    | nil => simp [List.isPrefixOf] at h
    | cons y ys =>
      simp only [List.isPrefixOf, Bool.and_eq_true] at h
      simpa using ih h.2

lemma sep_head_eq {x : Nat} {l : List Nat}
    (h : headerSeparator.isPrefixOf (x :: l) = true) : x = 13 := by
  simp only [headerSeparator, List.isPrefixOf, Bool.and_eq_true, beq_iff_eq] at h
  omega

lemma findSeparator_bound {l : List Nat} {i : Nat} (h : findSeparator l = some i) :
    i + 4 ≤ l.length := by
  induction l generalizing i with
  | nil => simp [findSeparator] at h
  | cons x rest ih =>
    rw [findSeparator] at h
    split at h
    · rename_i hp
      have h4 := length_le_of_isPrefixOf hp
      simp only [headerSeparator] at h4
      simp only [Option.some.injEq] at h
      simp at h4 ⊢
      omega
    · cases hfind : findSeparator rest with
      | none => rw [hfind] at h; simp at h
      | some j =>
        rw [hfind] at h
        simp only [Option.map_some', Option.some.injEq] at h
        have := ih hfind
        simp
        omega

lemma findSeparator_none_short : ∀ {t : List Nat}, t.length < 4 → findSeparator t = none := by
  intro t
  induction t with
  | nil => intro _; simp [findSeparator]
  | cons x r ih =>
    intro hlen
    have hnp : headerSeparator.isPrefixOf (x :: r) = false := by
      cases hb : headerSeparator.isPrefixOf (x :: r) with
      | false => rfl
      | true =>
        have h4 := length_le_of_isPrefixOf hb
        simp only [headerSeparator] at h4
        simp at h4 hlen
        omega
    rw [findSeparator, hnp]
    simp only [Bool.false_eq_true, if_false]
    rw [ih (by simp at hlen ⊢; omega)]
    rfl

lemma findSeparator_append_none {a t : List Nat} (ha : ∀ x ∈ a, x ≠ 13)
    (ht : t.length < 4) : findSeparator (a ++ t) = none := by
  induction a with
  | nil => simpa using findSeparator_none_short ht
  | cons y a' ih =>
    have hy : y ≠ 13 := ha y (by simp)
    have hnp : headerSeparator.isPrefixOf (y :: (a' ++ t)) = false := by
      cases hb : headerSeparator.isPrefixOf (y :: (a' ++ t)) with
      | false => rfl
      | true => exact absurd (sep_head_eq hb) hy
    rw [List.cons_append, findSeparator, hnp]
    simp only [Bool.false_eq_true, if_false]
    rw [ih (fun x hx => ha x (by simp [hx]))]
    rfl

lemma findSeparator_append_sep {a r : List Nat} (ha : ∀ x ∈ a, x ≠ 13)
    (hr : headerSeparator.isPrefixOf r = true) :
    findSeparator (a ++ r) = some a.length := by
  induction a with
  | nil =>
    cases r with
    | nil => simp [headerSeparator, List.isPrefixOf] at hr
    | cons b rest => simp [findSeparator, hr]
  | cons y a' ih =>
    have hy : y ≠ 13 := ha y (by simp)
    have hnp : headerSeparator.isPrefixOf (y :: (a' ++ r)) = false := by
      cases hb : headerSeparator.isPrefixOf (y :: (a' ++ r)) with
      | false => rfl
      | true => exact absurd (sep_head_eq hb) hy
    rw [List.cons_append, findSeparator, hnp]
    simp only [Bool.false_eq_true, if_false]
    rw [ih (fun x hx => ha x (by simp [hx]))]
    simp

/-! Facts about the decimal digit printer. -/

lemma natToAsciiDigitsAux_eq {fuel n : Nat} (h : n ≤ fuel) :
    natToAsciiDigitsAux fuel n = ((Nat.digits 10 n).reverse).map (· + 48) := by
  induction fuel generalizing n with
  | zero =>
    have hn : n = 0 := by omega
    subst hn
    simp [natToAsciiDigitsAux]
  | succ f ih =>
    by_cases hn : n = 0
    · subst hn; simp [natToAsciiDigitsAux]
    · have hdiv : n / 10 ≤ f := by
        have : n / 10 < n := Nat.div_lt_self (Nat.pos_of_ne_zero hn) (by norm_num)
        omega
      rw [natToAsciiDigitsAux, if_neg hn, ih hdiv,
        Nat.digits_def' (by norm_num : (1 : Nat) < 10) (Nat.pos_of_ne_zero hn)]
      simp [Nat.add_comm]

lemma natToAsciiDigits_eq (n : Nat) :
    natToAsciiDigits n =
      if n = 0 then [48] else ((Nat.digits 10 n).reverse).map (· + 48) := by
  by_cases h : n = 0 <;> simp [natToAsciiDigits, h, natToAsciiDigitsAux_eq le_rfl]

lemma natToAsciiDigits_mem {n d : Nat} (h : d ∈ natToAsciiDigits n) :
    48 ≤ d ∧ d ≤ 57 := by
  rw [natToAsciiDigits_eq] at h
  by_cases hn : n = 0
  · simp [hn] at h; omega
  · simp only [hn, if_false, List.mem_map, List.mem_reverse] at h
    obtain ⟨e, he, rfl⟩ := h
    have : e < 10 := Nat.digits_lt_base (by norm_num) he
    omega

lemma natToAsciiDigits_ne_nil (n : Nat) : natToAsciiDigits n ≠ [] := by
  rw [natToAsciiDigits_eq]
  by_cases hn : n = 0 <;> simp [hn, Nat.digits_ne_nil_iff_ne_zero]

lemma foldl_digits (L : List Nat) : ∀ acc : Nat,
    L.reverse.foldl (fun a d => a * 10 + d) acc = acc * 10 ^ L.length + Nat.ofDigits 10 L := by
  induction L with
  | nil => intro acc; simp [Nat.ofDigits_nil]
  | cons d L' ih =>
    intro acc
    simp only [List.reverse_cons, List.foldl_append, ih, List.foldl_cons, List.foldl_nil,
      Nat.ofDigits_cons, List.length_cons]
    ring

lemma digitsValue_natToAsciiDigits (n : Nat) : digitsValue (natToAsciiDigits n) = n := by
  rw [natToAsciiDigits_eq]
  by_cases hn : n = 0
  · simp [hn, digitsValue]
  · simp only [hn, if_false, digitsValue, List.foldl_map, Nat.add_sub_cancel]
    rw [← List.map_id ((Nat.digits 10 n).reverse)]
    simp only [List.foldl_map, id]
    rw [foldl_digits]
    simpa using Nat.ofDigits_digits 10 n

/-! Facts about the header block of a well-formed frame. -/

lemma contentLengthLabel_ne13 : ∀ x ∈ contentLengthLabel, x ≠ 13 := by decide

lemma contentLengthLabel_lt128 : ∀ x ∈ contentLengthLabel, x < 128 := by decide

lemma frameHeader_ne13 {n : Nat} : ∀ x ∈ frameHeader n, x ≠ 13 := by
  intro x hx
  rcases List.mem_append.mp hx with h | h
  · exact contentLengthLabel_ne13 x h
  · have := natToAsciiDigits_mem h; omega

lemma frameHeader_lt128 {n : Nat} : ∀ x ∈ frameHeader n, x < 128 := by
  intro x hx
  rcases List.mem_append.mp hx with h | h
  · exact contentLengthLabel_lt128 x h
  · have := natToAsciiDigits_mem h; omega

lemma asciiDecode_frameHeader (n : Nat) : asciiDecode (frameHeader n) = frameHeader n := by
  unfold asciiDecode
  have : (frameHeader n).map (· % 128) = (frameHeader n).map id :=
    List.map_congr_left (fun a ha => Nat.mod_eq_of_lt (frameHeader_lt128 a ha))
  simpa using this

lemma label_lower : contentLengthLabel.map toLowerByte = clLiteral ++ [32] := by decide

lemma toLowerByte_digit {d : Nat} (h48 : 48 ≤ d) (h57 : d ≤ 57) : toLowerByte d = d := by
  rw [toLowerByte, if_neg (by omega)]

lemma map_toLower_digits (n : Nat) :
    (natToAsciiDigits n).map toLowerByte = natToAsciiDigits n := by
  have : (natToAsciiDigits n).map toLowerByte = (natToAsciiDigits n).map id :=
    List.map_congr_left (fun a ha => by
      have := natToAsciiDigits_mem ha
      exact toLowerByte_digit this.1 this.2)
  simpa using this

lemma takeWhile_all {p : Nat → Bool} {l : List Nat} (h : ∀ x ∈ l, p x = true) :
    l.takeWhile p = l := by
  induction l with
  | nil => rfl
  | cons a as ih => simp_all [List.takeWhile_cons]

lemma parseContentLength_cons (b : Nat) (rest : List Nat) :
    parseContentLength (b :: rest) =
      if clLiteral.isPrefixOf ((b :: rest).map toLowerByte) then
        match matchDigitsAfterWs ((b :: rest).drop clLiteral.length) with
        | some n => some n
        | none => parseContentLength rest
      else parseContentLength rest := by
  rw [parseContentLength]

/-- The regex model extracts exactly the declared length from the header block
that `encodeMessage` produces. -/
lemma parseContentLength_header (n : Nat) :
    parseContentLength (frameHeader n) = some n := by
  have hne := natToAsciiDigits_ne_nil n
  have hpre : clLiteral.isPrefixOf
      ((contentLengthLabel ++ natToAsciiDigits n).map toLowerByte) = true := by
    rw [List.map_append, label_lower, map_toLower_digits, List.append_assoc]
    exact isPrefixOf_self_append _ _
  have hdrop : (contentLengthLabel ++ natToAsciiDigits n).drop clLiteral.length
      = 32 :: natToAsciiDigits n := by
    rw [List.drop_append_eq_append_drop]
    norm_num [contentLengthLabel, clLiteral]
  have hmatch : matchDigitsAfterWs (32 :: natToAsciiDigits n) = some n := by
    obtain ⟨d, ds', hcons⟩ := List.exists_cons_of_ne_nil hne
    have hd : 48 ≤ d ∧ d ≤ 57 := natToAsciiDigits_mem (by rw [hcons]; simp)
    have h1 : (32 :: natToAsciiDigits n).dropWhile isWsByte = natToAsciiDigits n := by
      rw [List.dropWhile_cons, if_pos (by simp [isWsByte]), hcons,
        List.dropWhile_cons, if_neg (by simp [isWsByte]; omega)]
    have h2 : (natToAsciiDigits n).takeWhile isDigitByte = natToAsciiDigits n :=
      takeWhile_all (fun x hx => by
        have := natToAsciiDigits_mem hx
        simp [isDigitByte]; omega)
    rw [matchDigitsAfterWs]
    simp only [h1, h2]
    rw [if_neg (by simp [List.isEmpty_iff, hne])]
    rw [digitsValue_natToAsciiDigits]
  have h₀ : frameHeader n = 67 ::
      ([111, 110, 116, 101, 110, 116, 45, 76, 101, 110, 103, 116, 104, 58, 32]
        ++ natToAsciiDigits n) := by
    simp [frameHeader, contentLengthLabel]
  rw [h₀, parseContentLength_cons, ← List.cons_append]
  rw [show ([67, 111, 110, 116, 101, 110, 116, 45, 76, 101, 110, 103, 116, 104, 58, 32] : List Nat)
      = contentLengthLabel from rfl]
  rw [hpre]
  simp only [if_true]
  rw [hdrop, hmatch]

/-! Behaviour of the parse loop on well-formed frames. -/

lemma frame_decomp (body : List Nat) :
    encodeMessage body = frameHeader body.length ++ (headerSeparator ++ body) := by
  simp [encodeMessage, frameHeader]

lemma frame_length (body : List Nat) :
    (encodeMessage body).length
      = (frameHeader body.length).length + 4 + body.length := by
  rw [frame_decomp body]
  simp [headerSeparator]
  omega

lemma parseFuel_nil (fuel : Nat) : parseFuel fuel [] = ([], []) := by
  cases fuel with
  | zero => rfl
  | succ f => simp [parseFuel, parseStep, findSeparator]

/-- The loop iteration when no separator is in the buffer: return and wait. -/
lemma parseStep_done_none {buf : List Nat} (h : findSeparator buf = none) :
    parseStep buf = .done buf := by
  rw [parseStep, h]

/-- The loop iteration on a malformed header: skip past it and continue. -/
lemma parseStep_skip {buf : List Nat} {i : Nat} (hfind : findSeparator buf = some i)
    (hmal : parseContentLength (asciiDecode (buf.take i)) = none) :
    parseStep buf = .more (buf.drop (i + 4)) none := by
  simp only [parseStep, hfind, hmal]

/-- The loop iteration when the declared body has not fully arrived: wait. -/
lemma parseStep_wait {buf : List Nat} {i cl : Nat} (hfind : findSeparator buf = some i)
    (hcl : parseContentLength (asciiDecode (buf.take i)) = some cl)
    (hshort : buf.length < i + 4 + cl) :
    parseStep buf = .done buf := by
  simp only [parseStep, hfind, hcl]
  rw [if_pos hshort]

/-- The loop iteration on a complete frame: emit the body and advance. -/
lemma parseStep_emit {buf : List Nat} {i cl : Nat} (hfind : findSeparator buf = some i)
    (hcl : parseContentLength (asciiDecode (buf.take i)) = some cl)
    (hlong : ¬ buf.length < i + 4 + cl) :
    parseStep buf = .more (buf.drop (i + 4 + cl)) (some ((buf.drop (i + 4)).take cl)) := by
  simp only [parseStep, hfind, hcl]
  rw [if_neg hlong]

/-- Parsing any strict prefix of an encoded frame emits nothing and keeps the
whole prefix buffered (one loop iteration, returning to wait for input). -/
lemma parseStep_take_frame (body : List Nat) (k : Nat)
    (hk : k < (encodeMessage body).length) :
    parseStep ((encodeMessage body).take k) = .done ((encodeMessage body).take k) := by
  have hHne13 : ∀ x ∈ frameHeader body.length, x ≠ 13 := frameHeader_ne13
  rw [frame_decomp body] at hk ⊢
  set H := frameHeader body.length with hHdef
  have hTot : (H ++ (headerSeparator ++ body)).length
      = H.length + 4 + body.length := by
    simp [headerSeparator]
    omega
  rcases Nat.lt_or_ge k (H.length + 4) with hcase | hcase
  · -- the separator has not fully arrived: wait
    have htake : (H ++ (headerSeparator ++ body)).take k
        = H.take k ++ (headerSeparator ++ body).take (k - H.length) :=
      List.take_append_eq_append_take
    have hfind : findSeparator ((H ++ (headerSeparator ++ body)).take k) = none := by
      rw [htake]
      apply findSeparator_append_none
      · intro x hx; exact hHne13 x (List.mem_of_mem_take hx)
      · have h1 : ((headerSeparator ++ body).take (k - H.length)).length
            ≤ k - H.length := by
          rw [List.length_take]; omega
        omega
    exact parseStep_done_none hfind
  · -- header complete, body incomplete: wait for the declared byte count
    have h1 : (H ++ (headerSeparator ++ body)).take k
        = H ++ (headerSeparator ++ body).take (k - H.length) := by
      rw [List.take_append_eq_append_take, List.take_of_length_le (by omega)]
    have h2 : (headerSeparator ++ body).take (k - H.length)
        = headerSeparator ++ body.take (k - H.length - 4) := by
      rw [List.take_append_eq_append_take,
        List.take_of_length_le (by simp [headerSeparator]; omega)]
      simp [headerSeparator]
    have hfind : findSeparator ((H ++ (headerSeparator ++ body)).take k)
        = some H.length := by
      rw [h1, h2]
      exact findSeparator_append_sep hHne13 (isPrefixOf_self_append _ _)
    have htakeH : ((H ++ (headerSeparator ++ body)).take k).take H.length = H := by
      rw [h1, h2, ← List.append_assoc, List.take_append_eq_append_take]
      simp
    have hcl : parseContentLength
        (asciiDecode (((H ++ (headerSeparator ++ body)).take k).take H.length))
        = some body.length := by
      rw [htakeH, hHdef, asciiDecode_frameHeader, parseContentLength_header]
    have hlen : ((H ++ (headerSeparator ++ body)).take k).length = k := by
      rw [List.length_take]
      exact Nat.min_eq_left (Nat.le_of_lt hk)
    exact parseStep_wait hfind hcl (by rw [hlen]; omega)

/-- Parsing a complete encoded frame emits exactly the payload and empties the
buffer. -/
lemma parse_frame (body : List Nat) :
    parse (encodeMessage body) = ([], [body]) := by
  have hstep : parseStep (encodeMessage body) = .more [] (some body) := by
    rw [frame_decomp body]
    set H := frameHeader body.length with hHdef
    have hTot : (H ++ (headerSeparator ++ body)).length
        = H.length + 4 + body.length := by
      simp [headerSeparator]
      omega
    have hfind : findSeparator (H ++ (headerSeparator ++ body)) = some H.length :=
      findSeparator_append_sep frameHeader_ne13 (isPrefixOf_self_append _ _)
    have hcl : parseContentLength
        (asciiDecode ((H ++ (headerSeparator ++ body)).take H.length))
        = some body.length := by
      have htakeH : (H ++ (headerSeparator ++ body)).take H.length = H := by simp
      rw [htakeH, hHdef, asciiDecode_frameHeader, parseContentLength_header]
    have hdropBody : (H ++ (headerSeparator ++ body)).drop (H.length + 4) = body := by
      have hlen2 : (H ++ headerSeparator).length = H.length + 4 := by
        simp [headerSeparator]
      rw [← List.append_assoc, List.drop_append_eq_append_drop,
        List.drop_eq_nil_of_le (le_of_eq hlen2), hlen2]
      simp
    rw [parseStep_emit hfind hcl (by omega)]
    rw [show H.length + 4 + body.length = (H ++ (headerSeparator ++ body)).length from by
      omega]
    rw [List.drop_length, hdropBody, List.take_length]
  rw [parse, parseFuel, hstep]
  simp [parseFuel_nil]

lemma parse_take_frame (body : List Nat) (k : Nat)
    (hk : k < (encodeMessage body).length) :
    parse ((encodeMessage body).take k) = ((encodeMessage body).take k, []) := by
  have hstep := parseStep_take_frame body k hk
  rw [parse, parseFuel, hstep]

/-! Termination of the parse loop: every continuing iteration strictly
consumes bytes, so a bounded iteration budget gives the loop's result. -/

lemma parseStep_more_consumes {buf b : List Nat} {e : Option (List Nat)}
    (h : parseStep buf = .more b e) : b.length + 4 ≤ buf.length := by
  cases hfind : findSeparator buf with
  | none => rw [parseStep_done_none hfind] at h; simp at h
  | some i =>
    have hle := findSeparator_bound hfind
    cases hcl : parseContentLength (asciiDecode (buf.take i)) with
    | none =>
      rw [parseStep_skip hfind hcl] at h
      simp only [StepResult.more.injEq] at h
      rw [← h.1, List.length_drop]
      omega
    | some cl =>
      by_cases hshort : buf.length < i + 4 + cl
      · rw [parseStep_wait hfind hcl hshort] at h; simp at h
      · rw [parseStep_emit hfind hcl hshort] at h
        simp only [StepResult.more.injEq] at h
        rw [← h.1, List.length_drop]
        omega

lemma parseFuel_step (fuel : Nat) : ∀ buf : List Nat, buf.length ≤ 4 * fuel →
    parseFuel fuel buf = parseFuel (fuel + 1) buf := by
  induction fuel with
  | zero =>
    intro buf h
    have hb : buf = [] := List.length_eq_zero.mp (by omega)
    subst hb
    rw [parseFuel_nil, parseFuel_nil]
  | succ f ih =>
    intro buf h
    rw [parseFuel, parseFuel]
    cases hstep : parseStep buf with
    | done b => rfl
    | more b e =>
      have hcons := parseStep_more_consumes hstep
      cases e with
      | none => exact ih b (by omega)
      | some msg =>
        have heq := ih b (by omega)
        simp only [hstep, heq]

lemma parseFuel_mono (buf : List Nat) (f g : Nat) (hf : buf.length ≤ 4 * f)
    (hfg : f ≤ g) : parseFuel f buf = parseFuel g buf := by
  induction g with
  | zero =>
    have : f = 0 := by omega
    subst this; rfl
  | succ g ih =>
    rcases Nat.lt_or_ge f (g + 1) with hlt | hge
    · have hfg' : f ≤ g := by omega
      rw [ih hfg', parseFuel_step g buf (by omega)]
    · have : f = g + 1 := by omega
      subst this; rfl

/-- Any iteration budget of at least a quarter of the buffer length computes
the loop's final result: the `while (true)` loop always terminates. -/
lemma parseFuel_enough (buf : List Nat) (fuel : Nat) (h : buf.length ≤ 4 * fuel) :
    parseFuel fuel buf = parse buf := by
  rcases Nat.le_total fuel (buf.length + 1) with hle | hle
  · rw [parse]; exact parseFuel_mono buf fuel _ h hle
  · rw [parse]; exact (parseFuel_mono buf (buf.length + 1) fuel (by omega) hle).symm

/-! The claims about the framing codec. -/

lemma writeAll_nil_chunks {msgs : List (List Nat)} {chunks : List (List Nat)}
    (h : chunks.flatten = []) : writeAll ⟨[], msgs⟩ chunks = ⟨[], msgs⟩ := by
  induction chunks with
  | nil => rfl
  | cons c cs ih =>
    rw [List.flatten_cons] at h
    have hc : c = [] := (List.append_eq_nil.mp h).1
    subst hc
    simp only [writeAll, List.foldl_cons]
    have hw : write ⟨[], msgs⟩ [] = ⟨[], msgs⟩ := by
      simp [write, parse, parseFuel_nil]
    rw [hw]
    exact ih (List.append_eq_nil.mp h).2

lemma writeAll_frame (body : List Nat) :
    ∀ (chunks : List (List Nat)) (p : List Nat) (msgs : List (List Nat)),
      p ++ chunks.flatten = encodeMessage body →
      p.length < (encodeMessage body).length →
      writeAll ⟨p, msgs⟩ chunks = ⟨[], msgs ++ [body]⟩ := by
  intro chunks
  induction chunks with
  | nil =>
    intro p msgs hflat hlen
    simp only [List.flatten_nil, List.append_nil] at hflat
    rw [hflat] at hlen
    omega
  | cons c cs ih =>
    intro p msgs hflat hlen
    rw [List.flatten_cons, ← List.append_assoc] at hflat
    simp only [writeAll, List.foldl_cons]
    rcases Nat.lt_or_ge (p ++ c).length (encodeMessage body).length with hlt | hge
    · -- still a strict prefix of the frame: nothing emitted yet
      have hpc : p ++ c = (encodeMessage body).take (p ++ c).length := by
        rw [← hflat, List.take_append_eq_append_take, Nat.sub_self, List.take_zero,
          List.append_nil, List.take_of_length_le (le_refl _)]
      have hw : write ⟨p, msgs⟩ c = ⟨p ++ c, msgs⟩ := by
        simp only [write]
        rw [hpc, parse_take_frame body _ (by omega)]
        simp [← hpc]
      rw [hw]
      exact ih (p ++ c) msgs hflat hlt
    · -- the chunk completes the frame: the payload is emitted
      have hlen2 : (p ++ c).length + cs.flatten.length = (encodeMessage body).length := by
        rw [← hflat]; simp; omega
      have hfl : cs.flatten = [] := List.length_eq_zero.mp (by omega)
      have hpc : p ++ c = encodeMessage body := by
        rw [hfl, List.append_nil] at hflat; exact hflat
      have hw : write ⟨p, msgs⟩ c = ⟨[], msgs ++ [body]⟩ := by
        simp only [write]
        rw [hpc, parse_frame]
      rw [hw]
      exact writeAll_nil_chunks hfl

lemma encodeMessage_length_pos (body : List Nat) : 0 < (encodeMessage body).length := by
  rw [frame_length body]
  omega

/-- C1: for every payload string, feeding the bytes of `encodeMessage(payload)`
to a fresh `LspMessageParser` in any chunking whatsoever invokes `onMessage`
exactly once, with exactly the payload's UTF-8 bytes (whose Node `utf-8`
decoding is the original payload string), and leaves the buffer empty. -/
theorem framing_round_trip (payload : String) (chunks : List (List Nat))
    (h : chunks.flatten = encodeMessage (strBytes payload)) :
    writeAll freshParser chunks = ⟨[], [strBytes payload]⟩ := by
  have := writeAll_frame (strBytes payload) chunks [] []
    (by simpa using h)
    (by simpa using encodeMessage_length_pos (strBytes payload))
  simpa [freshParser] using this

/-- Witness for C1: the frame of payload `abc`, split byte-by-byte. -/
theorem framing_round_trip_witness :
    ((encodeMessage (strBytes "abc")).map (fun b => [b])).flatten
        = encodeMessage (strBytes "abc") ∧
    writeAll freshParser ((encodeMessage (strBytes "abc")).map (fun b => [b]))
        = ⟨[], [strBytes "abc"]⟩ := by
  refine ⟨by decide, ?_⟩
  exact framing_round_trip "abc" ((encodeMessage (strBytes "abc")).map (fun b => [b]))
    (by decide)

/-- C4: truncating an encoded frame at any byte offset strictly before its end
and feeding the truncated part to a fresh parser emits zero messages; feeding
the remaining bytes afterwards emits exactly one message, equal to the
payload. -/
theorem partial_frame_safety (payload : String) (k : Nat)
    (hk : k < (encodeMessage (strBytes payload)).length) :
    write freshParser ((encodeMessage (strBytes payload)).take k)
        = ⟨(encodeMessage (strBytes payload)).take k, []⟩ ∧
    write (write freshParser ((encodeMessage (strBytes payload)).take k))
        ((encodeMessage (strBytes payload)).drop k)
        = ⟨[], [strBytes payload]⟩ := by
  have h1 : write freshParser ((encodeMessage (strBytes payload)).take k)
      = ⟨(encodeMessage (strBytes payload)).take k, []⟩ := by
    simp only [write, freshParser, List.nil_append]
    rw [parse_take_frame _ k hk]
  refine ⟨h1, ?_⟩
  rw [h1]
  simp only [write, List.take_append_drop]
  rw [parse_frame]
  simp

/-- Witness for C4: the frame of payload `abc`, truncated after five bytes. -/
theorem partial_frame_safety_witness :
    5 < (encodeMessage (strBytes "abc")).length ∧
    write freshParser ((encodeMessage (strBytes "abc")).take 5)
        = ⟨(encodeMessage (strBytes "abc")).take 5, []⟩ ∧
    write (write freshParser ((encodeMessage (strBytes "abc")).take 5))
        ((encodeMessage (strBytes "abc")).drop 5)
        = ⟨[], [strBytes "abc"]⟩ := by
  have h := partial_frame_safety "abc" 5 (by decide)
  exact ⟨by decide, h.1, h.2⟩

/-- C5: when the buffer starts with a header block (bytes up to the first
CRLFCRLF) with no parseable Content-Length field, the loop iteration skips
past that block and continues on the rest of the buffer; moreover every
continuing iteration consumes at least four bytes, and any iteration budget
of a quarter of the buffer length already computes the loop's result — the
loop always terminates, never spinning without consuming or returning. -/
theorem malformed_header_skip (buf : List Nat) (i : Nat)
    (hsep : findSeparator buf = some i)
    (hmal : parseContentLength (asciiDecode (buf.take i)) = none) :
    parseStep buf = .more (buf.drop (i + 4)) none ∧
    i + 4 ≤ buf.length ∧
    (∀ (buf2 b : List Nat) (e : Option (List Nat)),
      parseStep buf2 = .more b e → b.length + 4 ≤ buf2.length) ∧
    (∀ (buf2 : List Nat) (fuel : Nat),
      buf2.length ≤ 4 * fuel → parseFuel fuel buf2 = parse buf2) :=
  ⟨parseStep_skip hsep hmal, findSeparator_bound hsep,
    fun _ _ _ hh => parseStep_more_consumes hh,
    fun buf2 fuel hf => parseFuel_enough buf2 fuel hf⟩

/-- Witness for C5: buffer `X` CRLFCRLF `Y`: the header block `X` has no
length field, the parser skips it, and two units of fuel settle the loop. -/
theorem malformed_header_skip_witness :
    findSeparator [88, 13, 10, 13, 10, 89] = some 1 ∧
    parseContentLength (asciiDecode ([88, 13, 10, 13, 10, 89].take 1)) = none ∧
    parseStep [88, 13, 10, 13, 10, 89] = .more [89] none ∧
    parseFuel 2 [88, 13, 10, 13, 10, 89] = parse [88, 13, 10, 13, 10, 89] := by
  have h := malformed_header_skip [88, 13, 10, 13, 10, 89] 1 (by decide) (by decide)
  exact ⟨by decide, by decide, h.1, h.2.2.2 _ 2 (by decide)⟩

/-! The process supervisor (`LspManager` in the electron main process).

`start` is an `async` method: it checks the `servers` registry, and when the
key is absent it spawns the subprocess, creates the WebSocket listener and
then `await`s the listener's port before inserting the key into the registry.
The `await` is a suspension point of the event loop, so `start` is modelled in
two phases: `startPhase1` is everything up to the `await`, `startPhase2` is
the registration and return that happen after the port arrives. -/

/-- Association list lookup, modelling `Map.get`. -/
def lookupAssoc {α : Type} : List (String × α) → String → Option α
  | [], _ => none
  | (k2, v) :: rest, k => if k2 = k then some v else lookupAssoc rest k

/-- Association list update, modelling `Map.set` (replace or append). -/
def setAssoc {α : Type} : List (String × α) → String → α → List (String × α)
  | [], k, v => [(k, v)]
  | (k2, v2) :: rest, k, v =>
    if k2 = k then (k2, v) :: rest else (k2, v2) :: setAssoc rest k v

lemma lookupAssoc_setAssoc {α : Type} (l : List (String × α)) (k : String) (v : α) :
    lookupAssoc (setAssoc l k v) k = some v := by
  induction l with
  | nil => simp [setAssoc, lookupAssoc]
  | cons p rest ih =>
    obtain ⟨k2, v2⟩ := p
    by_cases h : k2 = k <;> simp [setAssoc, lookupAssoc, h, ih]

/-- `serverKey` from the supervisor. -/
def serverKey (languageId projectRoot : String) : String :=
  languageId ++ ":" ++ projectRoot

/-- The statically configured languages of `LSP_CONFIGS`. -/
def hasConfig (languageId : String) : Bool :=
  languageId == "typescript" || languageId == "python" ||
  languageId == "rust" || languageId == "go"

/-- Supervisor state: the `servers` registry (key to bound port) plus audit
logs of resources created so far: one entry per spawned subprocess and one per
created WebSocket listener, recorded by key. -/
structure LspManagerState where
  servers : List (String × Nat)
  spawnedKeys : List String
  listenerKeys : List String
deriving DecidableEq

/-- What the synchronous part of `start` hands back to its caller. -/
inductive StartPhase1Result where
  | alreadyRunning (port : Nat)
  | noConfig
  | awaitingPort
deriving DecidableEq

/-- `start` up to the `await`: return the registered port when the key is in
the registry; otherwise throw when the language has no config, and otherwise
spawn the subprocess, create the listener, and suspend awaiting the port.
Nothing is inserted into the registry in this phase. -/
def startPhase1 (st : LspManagerState) (languageId projectRoot : String) :
    LspManagerState × StartPhase1Result :=
  let key := serverKey languageId projectRoot
  match lookupAssoc st.servers key with
  | some port => (st, .alreadyRunning port)
  | none =>
    if hasConfig languageId then
      ({ st with
          spawnedKeys := st.spawnedKeys ++ [key],
          listenerKeys := st.listenerKeys ++ [key] }, .awaitingPort)
    else (st, .noConfig)

/-- `start` after the `await`: register the server under its key and return
the listener's port. -/
def startPhase2 (st : LspManagerState) (languageId projectRoot : String)
    (port : Nat) : LspManagerState × Nat :=
  ({ st with servers := setAssoc st.servers (serverKey languageId projectRoot) port },
    port)

/-- Counterexample to C2 as stated: with an empty registry, a first
`start("go", "/repo")` spawns and suspends awaiting its port; a second
`start` for the same key issued while the first is still starting does not
find the key in the registry, so it spawns a second subprocess and creates a
second listener instead of returning the existing port. -/
theorem start_still_starting_spawns_duplicate :
    (startPhase1 (startPhase1 ⟨[], [], []⟩ "go" "/repo").1 "go" "/repo").2
        = .awaitingPort ∧
    (startPhase1 (startPhase1 ⟨[], [], []⟩ "go" "/repo").1 "go" "/repo").1.spawnedKeys
        = [serverKey "go" "/repo", serverKey "go" "/repo"] ∧
    (startPhase1 (startPhase1 ⟨[], [], []⟩ "go" "/repo").1 "go" "/repo").1.listenerKeys
        = [serverKey "go" "/repo", serverKey "go" "/repo"] := by
  refine ⟨?_, ?_, ?_⟩ <;> decide

/-- C2 amended: `start` is idempotent per key only once the key is registered.
A second call while a server for the key is already running (present in the
registry) returns the existing port, spawns no subprocess, creates no
listener, and leaves the supervisor state unchanged; a second call issued
while a previous `start` for the same key is still awaiting its port spawns a
duplicate subprocess and listener (see the counterexample). -/
theorem start_idempotent_when_running (st : LspManagerState)
    (languageId projectRoot : String) (port : Nat)
    (h : lookupAssoc st.servers (serverKey languageId projectRoot) = some port) :
    startPhase1 st languageId projectRoot = (st, .alreadyRunning port) := by
  simp [startPhase1, h]

/-- Witness for the amended C2: a registry already holding `go:/repo`. -/
theorem start_idempotent_when_running_witness :
    lookupAssoc [(serverKey "go" "/repo", 7007)] (serverKey "go" "/repo") = some 7007 ∧
    startPhase1 ⟨[(serverKey "go" "/repo", 7007)], [serverKey "go" "/repo"],
        [serverKey "go" "/repo"]⟩ "go" "/repo"
      = (⟨[(serverKey "go" "/repo", 7007)], [serverKey "go" "/repo"],
        [serverKey "go" "/repo"]⟩, .alreadyRunning 7007) := by
  refine ⟨by decide, ?_⟩
  exact start_idempotent_when_running _ "go" "/repo" 7007 (by decide)

/-! The client session (`useLspClient`).

Session-owned state: the `initializedRef` flag (called `ready` here), whether
the WebSocket is open, the open-document set, the per-document version map,
the pending-request id table and the request id counter.  Outbound traffic
and promise settlements are recorded as events. -/

/-- Observable effects of the session: notifications and requests put on the
wire dialog, and resolutions/rejections of pending-request promises. -/
inductive OutEvent where
  | didOpen (path : String) (version : Nat) (text : String)
  | didClose (path : String)
  | didChange (path : String) (version : Nat) (text : String)
  | requestSent (id : Nat) (method : String)
  | resolved (id : Nat)
  | rejected (id : Nat)
deriving DecidableEq

/-- The state owned by one `useLspClient` session.  `ready` is the
`initializedRef` flag; `wsOpen` is `ws.readyState === OPEN`. -/
structure SessionState where
  ready : Bool
  wsOpen : Bool
  openDocs : List String
  versions : List (String × Nat)
  pending : List Nat
  nextId : Nat
deriving DecidableEq

/-- `sendNotification`: put the message on the wire only when the socket is
open (otherwise it is silently not sent). -/
def emitIfOpen (st : SessionState) (e : OutEvent) : List OutEvent :=
  if st.wsOpen then [e] else []

/-- `openDocument`: no-op unless initialized and not already open; no-op when
the path has no editor model; otherwise mark open, set version 1 and send the
didOpen notification with the model's full text.  `models` is the editor's
model table (path to buffer text). -/
def openDocument (models : List (String × String)) (st : SessionState)
    (path : String) : SessionState × List OutEvent :=
  if !st.ready || st.openDocs.contains path then (st, [])
  else
    match lookupAssoc models path with
    | none => (st, [])
    | some text =>
      ({ st with
          openDocs := st.openDocs ++ [path],
          versions := setAssoc st.versions path 1 },
        emitIfOpen st (.didOpen path 1 text))

/-- `closeDocument`: no-op unless open; otherwise remove the open mark and the
version entry and send didClose. -/
def closeDocument (st : SessionState) (path : String) :
    SessionState × List OutEvent :=
  if st.openDocs.contains path then
    ({ st with
        openDocs := st.openDocs.filter (fun p => p ≠ path),
        versions := st.versions.filter (fun pv => pv.1 ≠ path) },
      emitIfOpen st (.didClose path))
  else (st, [])

/-- The debounce helper's timer state: the latest scheduled call's arguments,
or `none` when no call is pending.  A new call within the window clears the
previous timeout and schedules the new arguments (schedule-or-replace). -/
def debounceCall (timer : Option (String × String)) (path text : String) :
    Option (String × String) :=
  match timer with
  | _ => some (path, text)

/-- Timer expiry: run the debounced `sendDidChange` body with the last
scheduled arguments and clear the timer.  The body is a no-op unless
initialized and the document is open; otherwise it increments the version
(`(versions.get(path) ?? 0) + 1`) and sends didChange with the full text. -/
def flushDidChange (st : SessionState) (timer : Option (String × String)) :
    SessionState × Option (String × String) × List OutEvent :=
  match timer with
  | none => (st, none, [])
  | some (path, text) =>
    if st.ready && st.openDocs.contains path then
      let v := (lookupAssoc st.versions path).getD 0 + 1
      ({ st with versions := setAssoc st.versions path v }, none,
        emitIfOpen st (.didChange path v text))
    else (st, none, [])

/-- `sendRequest`: allocate the next id, insert it into the pending table and
put the request on the wire (the `ws.send` in `sendRequest` is unguarded; a
send on a non-open socket is discarded by the browser). -/
def sendRequest (st : SessionState) (method : String) :
    SessionState × List OutEvent :=
  let id := st.nextId + 1
  ({ st with nextId := id, pending := st.pending ++ [id] },
    emitIfOpen st (.requestSent id method))

/-- The `ws.onclose` handler: reject every entry of the pending table (in
table order), then clear the table; the initialized flag is dropped. -/
def wsOnClose (st : SessionState) : SessionState × List OutEvent :=
  ({ st with ready := false, wsOpen := false, pending := [] },
    st.pending.map OutEvent.rejected)

/-- Messages arriving on the session's socket, after `JSON.parse`:
`malformed` is data on which `JSON.parse` throws. -/
inductive InboundMsg where
  | malformed
  | response (id : Nat) (isError : Bool)
  | publishDiagnostics (uri : String)
  | showMessage (msgType : Nat) (text : String)
deriving DecidableEq

/-- The `ws.onmessage` handler.  Malformed data is caught and ignored.  A
response whose id is pending settles (resolves or rejects) and deletes
exactly that entry.  Diagnostics and showMessage notifications update editor
markers and toasts only — no session-owned state. -/
def wsOnMessage (st : SessionState) (msg : InboundMsg) :
    SessionState × List OutEvent :=
  match msg with
  | .malformed => (st, [])
  | .response id isError =>
    if st.pending.contains id then
      ({ st with pending := st.pending.erase id },
        [if isError then .rejected id else .resolved id])
    else (st, [])
  | .publishDiagnostics _ => (st, [])
  | .showMessage _ _ => (st, [])

/-- The effect cleanup of `useLspClient`, in source order: cancel the pending
debounce timer, dispose providers, close every open document (sending
didClose), clear markers, then — when the socket is open — send the shutdown
request (which inserts a fresh id into the pending table) and finally run
`pendingRequests.clear()`, which empties the table without invoking any
rejection callback. -/
def cleanup (st : SessionState) (_timer : Option (String × String)) :
    SessionState × Option (String × String) × List OutEvent :=
  let closeEvts := if st.wsOpen then st.openDocs.map OutEvent.didClose else []
  let st1 := { st with openDocs := [], versions := [] }
  if st1.wsOpen then
    let r := sendRequest st1 "shutdown"
    ({ r.1 with pending := [], ready := false }, none, closeEvts ++ r.2)
  else
    ({ st1 with pending := [], ready := false }, none, closeEvts)

/-- Recognizer of rejection events. -/
def isRejectedEvt : OutEvent → Bool
  | .rejected _ => true
  | _ => false

/-- Counterexample to C3 as stated: a session whose pending table holds
request id 7 and whose socket is open is torn down by the effect cleanup; the
table ends empty, yet the emitted events are exactly the shutdown request —
id 7's rejection callback is never invoked, so a pending entry was removed
without being resolved or rejected. -/
theorem cleanup_drops_pending_without_reject :
    (⟨true, true, [], [], [7], 7⟩ : SessionState).pending ≠ [] ∧
    (cleanup ⟨true, true, [], [], [7], 7⟩ none).1.pending = [] ∧
    (cleanup ⟨true, true, [], [], [7], 7⟩ none).2.2
        = [OutEvent.requestSent 8 "shutdown"] ∧
    (cleanup ⟨true, true, [], [], [7], 7⟩ none).2.2.filter isRejectedEvt = [] := by
  refine ⟨?_, ?_, ?_, ?_⟩ <;> decide

/-- C3 amended: on connection close (`ws.onclose`) every entry remaining in
the pending-request table has its rejection callback invoked and the table is
cleared; on explicit effect cleanup, however, the table is cleared without
invoking any rejection callback — entries still pending at cleanup are
dropped unrejected (and a response arriving later for such an id is ignored
by the response branch of `wsOnMessage`). -/
theorem teardown_pending_handling (st : SessionState)
    (tm : Option (String × String)) :
    (wsOnClose st).1.pending = [] ∧
    (∀ id ∈ st.pending, OutEvent.rejected id ∈ (wsOnClose st).2) ∧
    (cleanup st tm).1.pending = [] ∧
    (cleanup st tm).2.2.filter isRejectedEvt = [] := by
  refine ⟨rfl, fun id hid => List.mem_map_of_mem OutEvent.rejected hid, ?_, ?_⟩
  · by_cases h : st.wsOpen <;> simp [cleanup, sendRequest, h]
  · by_cases h : st.wsOpen <;>
      simp [cleanup, sendRequest, emitIfOpen, h, List.filter_append,
        List.filter_map, Function.comp, isRejectedEvt]

/-- Witness for the amended C3: a pending id 7 is rejected by `ws.onclose`. -/
theorem teardown_pending_handling_witness :
    7 ∈ (⟨true, true, [], [], [7], 7⟩ : SessionState).pending ∧
    OutEvent.rejected 7 ∈ (wsOnClose ⟨true, true, [], [], [7], 7⟩).2 ∧
    (cleanup (⟨true, true, [], [], [7], 7⟩ : SessionState) none).2.2.filter
        isRejectedEvt = [] := by
  have h := teardown_pending_handling ⟨true, true, [], [], [7], 7⟩ none
  exact ⟨by decide, h.2.1 7 (by decide), h.2.2.2⟩

/-- The debounced call always keeps only the last scheduled arguments. -/
lemma foldl_debounce (path : String) (texts : List String) (lastText : String)
    (h : texts.getLast? = some lastText) :
    ∀ d0 : Option (String × String),
      texts.foldl (fun d t => debounceCall d path t) d0 = some (path, lastText) := by
  induction texts with
  | nil => simp at h
  | cons t ts ih =>
    intro d0
    cases ts with
    | nil =>
      simp [List.getLast?] at h
      simp [debounceCall, h]
    | cons t2 ts2 =>
      rw [List.getLast?_cons_cons] at h
      rw [List.foldl_cons]
      exact ih h _

/-- C6: a burst of rapid changes for one path inside the debounce window
schedules only the final text; when the timer fires, exactly one didChange
notification is sent, carrying the final text and version `v0 + 1` where `v0`
is the version before the burst, and the timer handle is cleared. -/
theorem debounce_coalescing (st : SessionState) (path : String)
    (texts : List String) (lastText : String) (v0 : Nat)
    (hlast : texts.getLast? = some lastText)
    (hready : st.ready = true) (hopen : st.openDocs.contains path = true)
    (hws : st.wsOpen = true) (hv : lookupAssoc st.versions path = some v0) :
    texts.foldl (fun d t => debounceCall d path t) none = some (path, lastText) ∧
    (flushDidChange st (some (path, lastText))).2.2
        = [OutEvent.didChange path (v0 + 1) lastText] ∧
    lookupAssoc (flushDidChange st (some (path, lastText))).1.versions path
        = some (v0 + 1) ∧
    (flushDidChange st (some (path, lastText))).2.1 = none := by
  have hmem : path ∈ st.openDocs := by simpa using hopen
  refine ⟨foldl_debounce path texts lastText hlast none, ?_, ?_, ?_⟩
  · simp [flushDidChange, hready, hmem, hws, hv, emitIfOpen]
  · simp [flushDidChange, hready, hmem, hv, lookupAssoc_setAssoc]
  · simp [flushDidChange, hready, hmem, hv]

/-- Witness for C6: two rapid edits of `/repo/a.go` at version 1 coalesce
into one didChange at version 2 carrying the second text. -/
theorem debounce_coalescing_witness :
    (["x", "xy"] : List String).getLast? = some "xy" ∧
    (flushDidChange ⟨true, true, ["/repo/a.go"], [("/repo/a.go", 1)], [], 0⟩
        (some ("/repo/a.go", "xy"))).2.2
      = [OutEvent.didChange "/repo/a.go" 2 "xy"] := by
  have h := debounce_coalescing ⟨true, true, ["/repo/a.go"], [("/repo/a.go", 1)], [], 0⟩
    "/repo/a.go" ["x", "xy"] "xy" 1 (by decide) (by decide) (by decide) (by decide)
    (by decide)
  exact ⟨by decide, h.2.1⟩

/-- C7: opening the same path twice sends exactly one didOpen notification
(the second call is a no-op returning the state unchanged), and the
document's synchronization version is 1 after the calls. -/
theorem idempotent_open (models : List (String × String)) (st : SessionState)
    (path text : String) (hready : st.ready = true)
    (hnew : st.openDocs.contains path = false)
    (hmodel : lookupAssoc models path = some text) (hws : st.wsOpen = true) :
    (openDocument models st path).2 = [OutEvent.didOpen path 1 text] ∧
    openDocument models (openDocument models st path).1 path
        = ((openDocument models st path).1, []) ∧
    lookupAssoc (openDocument models st path).1.versions path = some 1 := by
  have hcond : (!st.ready || st.openDocs.contains path) = false := by
    rw [hready, hnew]; rfl
  have h1 : openDocument models st path
      = (({ st with
            openDocs := st.openDocs ++ [path],
            versions := setAssoc st.versions path 1 } : SessionState),
          [OutEvent.didOpen path 1 text]) := by
    rw [openDocument, hcond]
    simp [hmodel, emitIfOpen, hws]
  refine ⟨by rw [h1], ?_, ?_⟩
  · rw [h1]
    simp [openDocument, hready]
  · rw [h1]
    exact lookupAssoc_setAssoc st.versions path 1

/-- Witness for C7: opening `/repo/a.go` twice on a fresh ready session. -/
theorem idempotent_open_witness :
    lookupAssoc [("/repo/a.go", "package main")] "/repo/a.go"
        = some "package main" ∧
    (openDocument [("/repo/a.go", "package main")]
        ⟨true, true, [], [], [], 0⟩ "/repo/a.go").2
      = [OutEvent.didOpen "/repo/a.go" 1 "package main"] ∧
    lookupAssoc (openDocument [("/repo/a.go", "package main")]
        ⟨true, true, [], [], [], 0⟩ "/repo/a.go").1.versions "/repo/a.go"
      = some 1 := by
  have h := idempotent_open [("/repo/a.go", "package main")]
    ⟨true, true, [], [], [], 0⟩ "/repo/a.go" "package main"
    (by decide) (by decide) (by decide) (by decide)
  exact ⟨by decide, h.1, h.2.2⟩

/-- C10: an incoming transport message whose data is not parseable as JSON is
silently ignored: the handler returns normally (no exception is modelled
because `JSON.parse` is wrapped in try/catch with an early return), emits
nothing, and leaves the pending-request table, the open-document set and the
version map unchanged. -/
theorem malformed_message_ignored (st : SessionState) :
    (wsOnMessage st .malformed).1.pending = st.pending ∧
    (wsOnMessage st .malformed).1.openDocs = st.openDocs ∧
    (wsOnMessage st .malformed).1.versions = st.versions ∧
    (wsOnMessage st .malformed).2 = [] :=
  ⟨rfl, rfl, rfl, rfl⟩

/-! Provider registration (`registerProviders`), gated on the capabilities
stored from the handshake response. -/

/-- Truthiness of each provider-gating field of the server's advertised
capabilities (a missing or `false` field is not truthy). -/
structure ServerCapabilities where
  completionProvider : Bool
  hoverProvider : Bool
  definitionProvider : Bool
  signatureHelpProvider : Bool
  referencesProvider : Bool
  renameProvider : Bool
  documentSymbolProvider : Bool
  documentFormattingProvider : Bool
  codeActionProvider : Bool
deriving DecidableEq

/-- The feature providers that `registerProviders` can register. -/
inductive ProviderKind where
  | completion
  | hover
  | definition
  | signatureHelp
  | references
  | rename
  | documentSymbol
  | formatting
  | codeAction
deriving DecidableEq

/-- Whether the capabilities advertise the capability gating a provider. -/
def advertises (c : ServerCapabilities) : ProviderKind → Bool
  | .completion => c.completionProvider
  | .hover => c.hoverProvider
  | .definition => c.definitionProvider
  | .signatureHelp => c.signatureHelpProvider
  | .references => c.referencesProvider
  | .rename => c.renameProvider
  | .documentSymbol => c.documentSymbolProvider
  | .formatting => c.documentFormattingProvider
  | .codeAction => c.codeActionProvider

/-- `registerProviders`: one run after the handshake, registering providers in
source order, each under its capability guard; with no stored capabilities it
returns without registering anything.  The result lists the registrations
pushed onto the disposables. -/
def registerProviders (caps : Option ServerCapabilities) : List ProviderKind :=
  match caps with
  | none => []
  | some c =>
    (if c.completionProvider then [ProviderKind.completion] else []) ++
    (if c.hoverProvider then [ProviderKind.hover] else []) ++
    (if c.definitionProvider then [ProviderKind.definition] else []) ++
    (if c.signatureHelpProvider then [ProviderKind.signatureHelp] else []) ++
    (if c.referencesProvider then [ProviderKind.references] else []) ++
    (if c.renameProvider then [ProviderKind.rename] else []) ++
    (if c.documentSymbolProvider then [ProviderKind.documentSymbol] else []) ++
    (if c.documentFormattingProvider then [ProviderKind.formatting] else []) ++
    (if c.codeActionProvider then [ProviderKind.codeAction] else [])

/-- C8: registration is gated exactly by the advertised capabilities: no
advertised completion capability gives zero completion registrations; an
advertised hover capability gives exactly one hover registration; and no
provider of any kind is registered unless its capability is advertised. -/
theorem capability_gating (c : ServerCapabilities) :
    (c.completionProvider = false →
      (registerProviders (some c)).count ProviderKind.completion = 0) ∧
    (c.hoverProvider = true →
      (registerProviders (some c)).count ProviderKind.hover = 1) ∧
    (∀ k ∈ registerProviders (some c), advertises c k = true) := by
  obtain ⟨b1, b2, b3, b4, b5, b6, b7, b8, b9⟩ := c
  refine ⟨fun h1 => ?_, fun h2 => ?_, fun k hk => ?_⟩
  · subst h1
    cases b2 <;> cases b3 <;> cases b4 <;> cases b5 <;> cases b6 <;> cases b7 <;>
      cases b8 <;> cases b9 <;> rfl
  · subst h2
    cases b1 <;> cases b3 <;> cases b4 <;> cases b5 <;> cases b6 <;> cases b7 <;>
      cases b8 <;> cases b9 <;> rfl
  · simp only [registerProviders, List.mem_append] at hk
    rcases hk with ((((((((h | h) | h) | h) | h) | h) | h) | h) | h) <;>
      [skip; skip; skip; skip; skip; skip; skip; skip; skip] <;>
    · split at h <;> simp_all [advertises]

/-- Witness for C8: capabilities advertising hover but not completion give
zero completion registrations and exactly one hover registration. -/
theorem capability_gating_witness :
    (⟨false, true, false, false, false, false, false, false, false⟩ :
        ServerCapabilities).completionProvider = false ∧
    (registerProviders (some ⟨false, true, false, false, false, false, false,
        false, false⟩)).count ProviderKind.completion = 0 ∧
    (registerProviders (some ⟨false, true, false, false, false, false, false,
        false, false⟩)).count ProviderKind.hover = 1 := by
  have h := capability_gating
    ⟨false, true, false, false, false, false, false, false, false⟩
  exact ⟨rfl, h.1 rfl, h.2.1 rfl⟩

/-! The coordinate conversion layer (`lspConversions.ts`).  The editing
surface's positions are 1-based, the protocol's 0-based; both coordinates are
modelled as integers. -/

/-- A position of the editing surface (1-based line and column). -/
structure MonacoPosition where
  lineNumber : Int
  column : Int
deriving DecidableEq

/-- A protocol position (0-based line and character). -/
structure LspPosition where
  line : Int
  character : Int
deriving DecidableEq

/-- `monacoPositionToLsp`. -/
def monacoPositionToLsp (p : MonacoPosition) : LspPosition :=
  ⟨p.lineNumber - 1, p.column - 1⟩

/-- `lspPositionToMonaco`. -/
def lspPositionToMonaco (p : LspPosition) : MonacoPosition :=
  ⟨p.line + 1, p.character + 1⟩

/-- C9: for every editing-surface position with line `L ≥ 1` and column
`C ≥ 1`, converting to protocol coordinates and back yields exactly
`(L, C)`. -/
theorem coordinate_round_trip (L C : Int) (hL : 1 ≤ L) (hC : 1 ≤ C) :
    lspPositionToMonaco (monacoPositionToLsp ⟨L, C⟩) = ⟨L, C⟩ := by
  simp [monacoPositionToLsp, lspPositionToMonaco]

/-- Witness for C9: line 3, column 5. -/
theorem coordinate_round_trip_witness :
    (1 : Int) ≤ 3 ∧ (1 : Int) ≤ 5 ∧
    lspPositionToMonaco (monacoPositionToLsp ⟨3, 5⟩) = ⟨3, 5⟩ :=
  ⟨by decide, by decide, coordinate_round_trip 3 5 (by decide) (by decide)⟩

end Tentacles
